import Mathlib

/-!
Shallow embedding of the dependency-graph resolution engine of the
`gen-attributions` tool (files `cmd/module.go` and the graph-builder file).

External collaborators (the go.mod parser `modfile.Parse`, the archive
download `downloadModule`, the license classifier `detectLicense`, and the
filesystem) are modelled as oracle functions collected in an `Env` record;
their error values are plain strings, kept distinct from the two sentinel
errors `ErrorGoModFileNotFound` and `ErrorLicenseNotFound` that the engine
compares by identity.  `log.Fatal` (process termination) is modelled as a
dedicated `Outcome.fatal` result, distinct from an ordinary returned error.
-/

namespace GenAttrib

/-- `module.Version` from golang.org/x/mod: a module path plus a version. -/
structure ModVersion where
  path : String
  version : String
deriving DecidableEq, Repr

/-- `module.Version.String()`: `path@version`, or just `path` when the
version is empty. -/
def ModVersion.toString (v : ModVersion) : String :=
  if v.version == "" then v.path else v.path ++ "@" ++ v.version

/-- The `License` record (referenced by `module.go`): raw license bytes
plus the classified label. -/
structure License where
  data : String
  name : String
deriving DecidableEq, Repr

/-- The `Module` struct of `module.go`: identity, optional replacement,
optional license, and the list of resolved dependencies. -/
inductive Module where
  | mk (version : ModVersion) (replacedBy : Option ModVersion)
       (license : Option License) (dependencies : List Module)

def Module.version : Module → ModVersion
  | .mk v _ _ _ => v

def Module.replacedBy : Module → Option ModVersion
  | .mk _ r _ _ => r

def Module.license : Module → Option License
  | .mk _ _ l _ => l

def Module.dependencies : Module → List Module
  | .mk _ _ _ d => d

/-- `moduleID` from `module.go`.  Note two facts taken verbatim from the
source: the `fmt.Sprintf` that builds the replacement detail string has its
result discarded (it is not assigned to `replaceByDetail`), so the suffix is
always empty; and the format string interpolates `Version.Version` before
`Version.Path`, producing `version@path`. -/
def moduleID (version : ModVersion) (replacedBy : Option ModVersion) : String :=
  let replaceByDetail :=
    match replacedBy with
    | some _ => ""   -- the Sprintf result in the source is discarded
    | none => ""
  version.version ++ "@" ++ version.path ++ replaceByDetail

def Module.moduleID (m : Module) : String :=
  GenAttrib.moduleID m.version m.replacedBy

/-- A module reference as produced by `loadModulesFromModFile`: a `Module`
whose `License` and `Dependencies` fields are still nil. -/
structure ModRef where
  version : ModVersion
  replacedBy : Option ModVersion
deriving DecidableEq, Repr

def ModRef.moduleID (m : ModRef) : String :=
  GenAttrib.moduleID m.version m.replacedBy

/-- The parsed content of a go.mod file (`modfile.File`): the module's own
identity, the ordered `require` list and the `replace` table. -/
structure ModFile where
  module : ModVersion
  require : List ModVersion
  replace : List (ModVersion × ModVersion)
deriving DecidableEq, Repr

/-- `ModRoot` from `module.go`: a parsed mod file plus the directory it was
loaded from. -/
structure ModRoot where
  modFile : ModFile
  rootPath : String
deriving DecidableEq, Repr

/-- A file inside a downloaded module archive. -/
structure ZipEntry where
  name : String
  content : String
deriving DecidableEq, Repr

/-- A downloaded module archive, already opened: the ordered file listing.
(`zip.NewReader` failures cannot arise on an already-structured archive.) -/
abbrev Zip := List ZipEntry

/-- A directory entry as returned by `ioutil.ReadDir`. -/
structure DirEntry where
  name : String
  isDir : Bool
deriving DecidableEq, Repr

/-- The error values the engine distinguishes.  `goModNotFound` and
`licenseNotFound` are the two sentinel errors of the source; the other
constructors wrap collaborator error messages, which in Go are distinct
error instances and thus never compare equal to the sentinels. -/
inductive BuildErr where
  | goModNotFound
  | licenseNotFound
  | downloadErr (msg : String)
  | parseErr (msg : String)
  | classifyErr (msg : String)
  | readErr (msg : String)
deriving DecidableEq, Repr

/-- The result of an engine computation: an ordinary value, an ordinary
returned error, or process termination via `log.Fatal`. -/
inductive Outcome (α : Type) where
  | ok (a : α)
  | err (e : BuildErr)
  | fatal (msg : String)

/-- The external collaborators, as oracle functions. -/
structure Env where
  /-- `ioutil.ReadDir`. -/
  readDir : String → Except String (List DirEntry)
  /-- `ioutil.ReadFile`. -/
  readFile : String → Except String String
  /-- Modelled from the spec: `downloadModule` (Archive Retrieval,
  `fetch(identity) -> archive bytes | error`) is repository code not under
  `src/`; it is an oracle from an identity to an archive or an error. -/
  download : ModVersion → Except String Zip
  /-- `modfile.Parse` (out-of-scope collaborator): bytes to a parsed
  mod file or a parse error. -/
  parseModFile : String → Except String ModFile
  /-- Modelled from the spec: `licenseClassifierWrapper.detectLicense`
  (License Classifier, `classify(bytes) -> label | error`) is repository
  code not under `src/`; it is an oracle from license bytes to a label or
  an error. -/
  detectLicense : String → Except String String

/-- `strings.ToLower`, character-wise (the strings the engine lowers are
ASCII module identities and filenames). -/
def strToLower (s : String) : String :=
  ⟨s.data.map Char.toLower⟩

/-- Strip a leading character sequence: `some` of the remainder when `pre`
is a prefix of the list, `none` otherwise. -/
def dropPre : List Char → List Char → Option (List Char)
  | cs, [] => some cs
  | [], _ :: _ => none
  | c :: cs, p :: ps => if c == p then dropPre cs ps else none

/-- `strings.TrimPrefix`: remove `pre` from the front of `s` when present,
otherwise return `s` unchanged. -/
def trimLeading (s pre : String) : String :=
  match dropPre s.data pre.data with
  | some rest => ⟨rest⟩
  | none => s

/-- `filepath.Join` for the two-segment uses in the source (path cleaning
is irrelevant for the segments the engine joins). -/
def filepathJoin (a b : String) : String :=
  if a == "" then b else if b == "" then a else a ++ "/" ++ b

/-- `filepath.Dir`: everything before the last `/`, or `.` when the path
has no separator. -/
def filepathDir (p : String) : String :=
  let cs := p.data
  if cs.contains '/' then
    ⟨((cs.reverse.dropWhile (fun c => c != '/')).drop 1).reverse⟩
  else "."

/-- `isLicenseFilename` from the graph-builder file. -/
def isLicenseFilename (filename : String) : Bool :=
  let name := strToLower filename
  name == "/license.txt" || name == "/license" || name == "/license.md" ||
    name == "/copying"

/-- `extractLicense`: scan the archive listing and return the content of
the first file whose name, after stripping the lowered
`moduleFullName` prefix, matches the license filename heuristic. -/
def extractLicense (moduleFullName : String) (zipfile : Zip) :
    Except BuildErr String :=
  match zipfile.find?
      (fun file => isLicenseFilename (trimLeading file.name (strToLower moduleFullName))) with
  | some file => .ok file.content
  | none => .error .licenseNotFound

/-- The replacement map built by `loadModulesFromModFile`: Go map insertion
order means the last `replace` directive for a given old version wins. -/
def replacementLookup (rs : List (ModVersion × ModVersion)) (v : ModVersion) :
    Option ModVersion :=
  ((rs.filter (fun p => p.1 == v)).getLast?).map (fun p => p.2)

/-- `loadModulesFromModFile`: one `Module` per `require` directive, in
declared order, with the replacement looked up in the replace table. -/
def loadModulesFromModFile (modRoot : ModRoot) : List ModRef :=
  modRoot.modFile.require.map
    (fun r => ⟨r, replacementLookup modRoot.modFile.replace r⟩)

/-- `getRequiredModulesFromBytes`: parse the bytes; the resulting `ModRoot`
has an empty `RootPath` (Go zero value). -/
def getRequiredModulesFromBytes (env : Env) (b : String) :
    Except BuildErr (ModRoot × List ModRef) :=
  match env.parseModFile b with
  | .error msg => .error (.parseErr msg)
  | .ok goMod =>
    let modRoot : ModRoot := ⟨goMod, ""⟩
    .ok (modRoot, loadModulesFromModFile modRoot)

/-- `getRequiredModules`: find the archive entry whose name, after
stripping the `moduleFullName` prefix, is exactly `/go.mod`, and parse it;
otherwise the sentinel `goModNotFound`. -/
def getRequiredModules (env : Env) (moduleFullName : String) (zipfile : Zip) :
    Except BuildErr (ModRoot × List ModRef) :=
  match zipfile.find?
      (fun file => trimLeading file.name moduleFullName == "/go.mod") with
  | some file => getRequiredModulesFromBytes env file.content
  | none => .error .goModNotFound

/-- `getRequiredModulesFromFile`: read and parse a go.mod at a path; the
resulting `ModRoot`'s root path is the file's directory. -/
def getRequiredModulesFromFile (env : Env) (filename : String) :
    Except BuildErr (ModRoot × List ModRef) :=
  match env.readFile filename with
  | .error msg => .error (.readErr msg)
  | .ok b =>
    match env.parseModFile b with
    | .error msg => .error (.parseErr msg)
    | .ok goMod =>
      let modRoot : ModRoot := ⟨goMod, filepathDir filename⟩
      .ok (modRoot, loadModulesFromModFile modRoot)

/-- The directory-scanning loop of the local-replacement branch of
`extractLicenseAndRequiredModules`: for each entry, a non-directory whose
name matches the license heuristic overwrites the license bytes (a read
error leaves them nil, the error being discarded); otherwise an entry
named `go.mod` records the manifest path.  Returns (license bytes, go.mod
path), both empty when nothing matched. -/
def localScan (env : Env) (fullPath : String) (files : List DirEntry) :
    String × String :=
  files.foldl
    (fun acc file =>
      if !file.isDir && isLicenseFilename ("/" ++ file.name) then
        match env.readFile (filepathJoin fullPath file.name) with
        | .ok b => (b, acc.2)
        | .error _ => ("", acc.2)
      else if file.name == "go.mod" then
        (acc.1, filepathJoin fullPath file.name)
      else acc)
    ("", "")

/-- The tail of the remote branch of `extractLicenseAndRequiredModules`:
extract the required modules from the archive; the sentinel
`goModNotFound` is tolerated (nil mod root, nil modules), any other error
is returned. -/
def remoteRequiredModules (env : Env) (mod : ModRef) (moduleZip : Zip)
    (license : String) : Outcome (Option ModRoot × String × List ModRef) :=
  match getRequiredModules env mod.version.version moduleZip with
  | .ok (childRoot, childMods) => .ok (some childRoot, license, childMods)
  | .error .goModNotFound => .ok (none, license, [])
  | .error e => .err e

/-- `extractLicenseAndRequiredModules`.  The local-replacement branch joins
the replacement path onto the parent `ModRoot`'s root path, terminates the
process (`log.Fatal`) if that directory cannot be listed, scans it for a
license file and a `go.mod`, and returns with a nil error even when
`getRequiredModulesFromFile` failed (the source discards that error).  The
remote branch downloads the archive (download failure is tolerated in
lenient mode as an empty skip result), extracts the license (the
`licenseNotFound` sentinel is tolerated in lenient mode), then extracts
the required modules, passing `mod.Version.Version` as the prefix to
strip, exactly as the source does. -/
def extractLicenseAndRequiredModules (env : Env) (lenient : Bool)
    (modRoot : ModRoot) (mod : ModRef) :
    Outcome (Option ModRoot × String × List ModRef) :=
  match mod.replacedBy with
  | some rep =>
    let fullPath := filepathJoin modRoot.rootPath rep.path
    match env.readDir fullPath with
    | .error msg => .fatal msg
    | .ok files =>
      let scanned := localScan env fullPath files
      match getRequiredModulesFromFile env scanned.2 with
      | .ok (childRoot, childMods) => .ok (some childRoot, scanned.1, childMods)
      | .error _ => .ok (none, scanned.1, [])
  | none =>
    match env.download mod.version with
    | .error msg =>
      if lenient then .ok (none, "", [])
      else .err (.downloadErr msg)
    | .ok moduleZip =>
      match extractLicense (ModVersion.toString mod.version) moduleZip with
      | .error e =>
        if e == .licenseNotFound && lenient then
          remoteRequiredModules env mod moduleZip ""
        else .err e
      | .ok license => remoteRequiredModules env mod moduleZip license

/-- The placeholder license bytes substituted in lenient mode when no
license was found (the `%q` rendering of the version in the source's
format string is modelled as the quoted identity string). -/
def unknownLicensePlaceholder (v : ModVersion) : String :=
  "WARNING: YOU MUST OVERRIDE THIS WITH A PROPER LICENSE\nUNKNOWN LICENSE FOR \""
    ++ ModVersion.toString v ++ "\""

/-- The license-classification step inlined in `buildModulesDependencyGraph`
(the body between the extract call and the recursion): in lenient mode an
empty license degrades to the "Unknown" placeholder record; otherwise the
bytes are classified, a classifier failure aborting. -/
def classifyLicense (env : Env) (lenient : Bool) (v : ModVersion)
    (license : String) : Except BuildErr License :=
  if lenient && license.data.isEmpty then
    .ok ⟨unknownLicensePlaceholder v, "Unknown"⟩
  else
    match env.detectLicense license with
    | .ok name => .ok ⟨license, name⟩
    | .error msg => .error (.classifyErr msg)

/-- The module cache, keyed by `moduleID`; insertion at the front together
with first-match lookup gives Go map overwrite semantics. -/
abbrev Cache := List (String × Module)

/-- `getModuleFromCache`. -/
def getModuleFromCache (cache : Cache) (mod : ModRef) : Option Module :=
  (cache.find? (fun p => p.1 == mod.moduleID)).map (fun p => p.2)

/-- `cacheModule`. -/
def cacheModule (cache : Cache) (m : Module) : Cache :=
  (m.moduleID, m) :: cache

/-- A module skipped by the depth bound: the `Module` object built by
`loadModulesFromModFile` left untouched by the `continue` — license and
dependencies still nil. -/
def skippedNode (mod : ModRef) : Module :=
  .mk mod.version mod.replacedBy none []

/-- Prepend a finished node onto the result of processing the remaining
modules of the list, propagating errors and fatal termination. -/
def consResult (node : Module) (res : Outcome (List Module × Cache)) :
    Outcome (List Module × Cache) :=
  match res with
  | .ok (ms, c) => .ok (node :: ms, c)
  | .err e => .err e
  | .fatal msg => .fatal msg

/-- The per-module loop of `buildModulesDependencyGraph` at a level where
the depth bound has not yet been reached.  `recur` is the recursive call
used for a child manifest's modules at the next depth.  For each module:
consult the cache (a hit copies license and dependencies); on a miss,
extract license and required modules, classify the license, recurse into
the child manifest's modules when one was obtained (otherwise the
dependencies stay nil), and cache the finished node. -/
def buildList (env : Env) (lenient : Bool)
    (recur : ModRoot → List ModRef → Cache → Outcome (List Module × Cache))
    (modRoot : ModRoot) :
    List ModRef → Cache → Outcome (List Module × Cache)
  | [], cache => .ok ([], cache)
  | mod :: rest, cache =>
    match getModuleFromCache cache mod with
    | some cachedMod =>
      consResult (.mk mod.version mod.replacedBy cachedMod.license cachedMod.dependencies)
        (buildList env lenient recur modRoot rest cache)
    | none =>
      match extractLicenseAndRequiredModules env lenient modRoot mod with
      | .fatal msg => .fatal msg
      | .err e => .err e
      | .ok (childRootOpt, license, childModules) =>
        match classifyLicense env lenient mod.version license with
        | .error e => .err e
        | .ok lic =>
          match childRootOpt with
          | some childRoot =>
            match recur childRoot childModules cache with
            | .fatal msg => .fatal msg
            | .err e => .err e
            | .ok (childNodes, cache1) =>
              let node : Module := .mk mod.version mod.replacedBy (some lic) childNodes
              consResult node
                (buildList env lenient recur modRoot rest (cacheModule cache1 node))
          | none =>
            let node : Module := .mk mod.version mod.replacedBy (some lic) []
            consResult node
              (buildList env lenient recur modRoot rest (cacheModule cache node))

/-- `buildModulesDependencyGraph`.  The source carries `(depth, maxDepth)`
and tests `depth == maxDepth` per module before any other processing;
since `buildGraph` starts at depth 0 and the recursion only ever increases
the depth when it is strictly below the bound, `depth ≤ maxDepth` holds
throughout, and the pair is carried here as the single remaining budget
`maxDepth - depth`.  At budget 0 every module of the list is hit by the
`continue`, staying a bare identity-only node, the cache untouched. -/
def buildModulesDependencyGraph (env : Env) (lenient : Bool) :
    Nat → ModRoot → List ModRef → Cache → Outcome (List Module × Cache)
  | 0, _, mods, cache => .ok (mods.map skippedNode, cache)
  | r + 1, modRoot, mods, cache =>
    buildList env lenient (buildModulesDependencyGraph env lenient r)
      modRoot mods cache

/-- `Tree` from `module.go`: the dependency tree, rooted at a synthetic
node for the root module. -/
structure Tree where
  root : Module

/-- `buildGraph`: load the root manifest's requirements, resolve them
starting at depth 0, and wrap them under a synthetic root node carrying
the root module's identity and no license. -/
def buildGraph (env : Env) (lenient : Bool) (modRoot : ModRoot)
    (maxDepth : Nat) : Outcome Tree :=
  let requiredModules := loadModulesFromModFile modRoot
  match buildModulesDependencyGraph env lenient maxDepth modRoot
      requiredModules [] with
  | .ok (mods, _) => .ok ⟨.mk modRoot.modFile.module none none mods⟩
  | .err e => .err e
  | .fatal msg => .fatal msg

/-!
Concrete fixtures: small environments exercising each resolution path,
used by the closed evaluation theorems below.
-/

/-- Root module identity of the fixture manifests. -/
def rootV : ModVersion := ⟨"example.com/root", "v0.0.1"⟩

/-- A first-level dependency identity. -/
def aV : ModVersion := ⟨"example.com/a", "v1"⟩

/-- A second-level dependency identity. -/
def bV : ModVersion := ⟨"example.com/b", "v2"⟩

/-- A dependency identity whose archive uses the standard
`path@version/...` entry layout. -/
def mV : ModVersion := ⟨"example.com/m", "v1.0.0"⟩

/-- A local replacement target (path `a`, no version). -/
def repA : ModVersion := ⟨"a", ""⟩

/-- A root manifest requiring only `aV`, with no replacements. -/
def rootFileA : ModFile := ⟨rootV, [aV], []⟩

/-- The root manifest context for `rootFileA`. -/
def modRootA : ModRoot := ⟨rootFileA, "/src"⟩

/-- A root manifest requiring `aV` and replacing it with the local path
`a`. -/
def rootFileRepl : ModFile := ⟨rootV, [aV], [(aV, repA)]⟩

/-- The root manifest context for `rootFileRepl`. -/
def modRootRepl : ModRoot := ⟨rootFileRepl, "ctx"⟩

/-- Archive for `aV` whose go.mod entry is named so that stripping the
bare version does expose `/go.mod` (letting dependency expansion happen),
requiring `bV`. -/
def zipTwoLevel : Zip :=
  [⟨"example.com/a@v1/LICENSE", "MIT text"⟩, ⟨"v1/go.mod", "gomod-a"⟩]

/-- Environment for a two-level build: the root requires `aV`, whose
manifest requires `bV`. -/
def envTwoLevel : Env := {
  readDir := fun _ => .error "unused"
  readFile := fun _ => .error "unused"
  download := fun v => if v == aV then .ok zipTwoLevel else .error "no archive"
  parseModFile := fun b => if b == "gomod-a" then .ok ⟨aV, [bV], []⟩ else .error "bad"
  detectLicense := fun b => if b == "MIT text" then .ok "MIT" else .error "unknown" }

/-- The tree produced by `buildGraph envTwoLevel false modRootA 1`. -/
def treeTwoLevel : Tree :=
  ⟨.mk rootV none none
    [.mk aV none (some ⟨"MIT text", "MIT"⟩) [.mk bV none none []]]⟩

/-- Environment where the local replacement directory holds a go.mod that
fails to parse. -/
def envLocalBadMod : Env := {
  readDir := fun p => if p == "ctx/a" then .ok [⟨"go.mod", false⟩] else .error "unused"
  readFile := fun p => if p == "ctx/a/go.mod" then .ok "BADMOD" else .error "unused"
  download := fun _ => .error "unused"
  parseModFile := fun _ => .error "syntax error"
  detectLicense := fun _ => .ok "None" }

/-- Environment where the downloaded archive's go.mod fails to parse. -/
def envRemoteBadMod : Env := {
  readDir := fun _ => .error "unused"
  readFile := fun _ => .error "unused"
  download := fun v => if v == aV then
    .ok [⟨"example.com/a@v1/LICENSE", "MIT text"⟩, ⟨"v1/go.mod", "BADMOD"⟩]
    else .error "no archive"
  parseModFile := fun _ => .error "syntax error"
  detectLicense := fun _ => .ok "MIT" }

/-- Environment whose archive for `aV` holds a license but no manifest. -/
def envLeafLicense : Env := {
  readDir := fun _ => .error "unused"
  readFile := fun _ => .error "unused"
  download := fun v => if v == aV then
    .ok [⟨"example.com/a@v1/LICENSE", "MIT text"⟩] else .error "no archive"
  parseModFile := fun _ => .error "unused"
  detectLicense := fun b => if b == "MIT text" then .ok "MIT" else .error "unknown" }

/-- Environment whose archive for `aV` is empty: no license, no manifest. -/
def envEmptyArchive : Env := {
  readDir := fun _ => .error "unused"
  readFile := fun _ => .error "unused"
  download := fun v => if v == aV then .ok [] else .error "no archive"
  parseModFile := fun _ => .error "unused"
  detectLicense := fun _ => .error "unrecognized" }

/-- Environment where every download fails. -/
def envDownloadFail : Env := {
  readDir := fun _ => .error "unused"
  readFile := fun _ => .error "unused"
  download := fun _ => .error "connection refused"
  parseModFile := fun _ => .error "unused"
  detectLicense := fun _ => .error "unused" }

/-- Environment where every directory listing fails. -/
def envDirFail : Env := {
  readDir := fun _ => .error "no such directory"
  readFile := fun _ => .error "unused"
  download := fun _ => .error "unused"
  parseModFile := fun _ => .error "unused"
  detectLicense := fun _ => .error "unused" }

/-- Archive for `mV` using the standard layout: every entry name starts
with the full identity `example.com/m@v1.0.0`. -/
def zipStandardLayout : Zip :=
  [⟨"example.com/m@v1.0.0/go.mod", "gomod-m"⟩,
   ⟨"example.com/m@v1.0.0/LICENSE", "MIT text"⟩]

/-- Environment serving the standard-layout archive for `mV`, with a
parseable go.mod. -/
def envStandardLayout : Env := {
  readDir := fun _ => .error "unused"
  readFile := fun _ => .error "unused"
  download := fun v => if v == mV then .ok zipStandardLayout else .error "no archive"
  parseModFile := fun b => if b == "gomod-m" then .ok ⟨mV, [bV], []⟩ else .error "bad"
  detectLicense := fun _ => .ok "MIT" }

/-!
General lemmas about the embedding, shared by the claim theorems below.
-/

theorem consResult_ok {node : Module} {res : Outcome (List Module × Cache)}
    {ms : List Module} {c : Cache} (h : consResult node res = .ok (ms, c)) :
    ∃ ms', res = .ok (ms', c) ∧ ms = node :: ms' := by
  cases res with
  | ok p =>
    obtain ⟨a, b⟩ := p
    simp only [consResult, Outcome.ok.injEq, Prod.mk.injEq] at h
    exact ⟨a, by rw [h.2], by rw [h.1]⟩
  | err e => simp [consResult] at h
  | fatal m => simp [consResult] at h

theorem buildList_map_version (env : Env) (lenient : Bool)
    (recur : ModRoot → List ModRef → Cache → Outcome (List Module × Cache))
    (modRoot : ModRoot) :
    ∀ (mods : List ModRef) (cache : Cache) (ms : List Module) (c : Cache),
      buildList env lenient recur modRoot mods cache = .ok (ms, c) →
      ms.map Module.version = mods.map ModRef.version ∧
      ms.map Module.replacedBy = mods.map ModRef.replacedBy := by
  intro mods
  induction mods with
  | nil =>
    intro cache ms c h
    simp only [buildList, Outcome.ok.injEq, Prod.mk.injEq] at h
    simp [← h.1]
  | cons mod rest ih =>
    intro cache ms c h
    rw [buildList] at h
    split at h
    · obtain ⟨ms', hres, hcons⟩ := consResult_ok h
      obtain ⟨h1, h2⟩ := ih _ _ _ hres
      subst hcons
      simp [Module.version, Module.replacedBy, h1, h2]
    · split at h
      · exact absurd h (by simp)
      · exact absurd h (by simp)
      · split at h
        · exact absurd h (by simp)
        · split at h
          · split at h
            · exact absurd h (by simp)
            · exact absurd h (by simp)
            · obtain ⟨ms', hres, hcons⟩ := consResult_ok h
              obtain ⟨h1, h2⟩ := ih _ _ _ hres
              subst hcons
              simp [Module.version, Module.replacedBy, h1, h2]
          · obtain ⟨ms', hres, hcons⟩ := consResult_ok h
            obtain ⟨h1, h2⟩ := ih _ _ _ hres
            subst hcons
            simp [Module.version, Module.replacedBy, h1, h2]

theorem bmdg_map_version (env : Env) (lenient : Bool) (r : Nat)
    (modRoot : ModRoot) (mods : List ModRef) (cache : Cache)
    (ms : List Module) (c : Cache)
    (h : buildModulesDependencyGraph env lenient r modRoot mods cache = .ok (ms, c)) :
    ms.map Module.version = mods.map ModRef.version ∧
    ms.map Module.replacedBy = mods.map ModRef.replacedBy := by
  cases r with
  | zero =>
    simp only [buildModulesDependencyGraph, Outcome.ok.injEq, Prod.mk.injEq] at h
    simp [← h.1, skippedNode, Module.version, Module.replacedBy]
  | succ n =>
    exact buildList_map_version env lenient _ modRoot mods cache ms c h

theorem loadModules_map_version (mr : ModRoot) :
    (loadModulesFromModFile mr).map ModRef.version = mr.modFile.require := by
  unfold loadModulesFromModFile
  induction mr.modFile.require with
  | nil => rfl
  | cons x xs ih => simpa [ModRef.version] using ih

theorem buildGraph_root (env : Env) (lenient : Bool) (modRoot : ModRoot)
    (maxDepth : Nat) (t : Tree)
    (h : buildGraph env lenient modRoot maxDepth = .ok t) :
    t.root.version = modRoot.modFile.module ∧ t.root.license = none ∧
    t.root.replacedBy = none ∧
    t.root.dependencies.map Module.version = modRoot.modFile.require := by
  unfold buildGraph at h
  simp only at h
  rcases heq : buildModulesDependencyGraph env lenient maxDepth modRoot
      (loadModulesFromModFile modRoot) [] with ⟨ms, c⟩ | e | m
  · rw [heq] at h
    simp only [Outcome.ok.injEq] at h
    have hv := bmdg_map_version env lenient maxDepth modRoot _ _ _ _ heq
    subst h
    refine ⟨rfl, rfl, rfl, ?_⟩
    simp only [Module.dependencies]
    rw [hv.1, loadModules_map_version]
  · rw [heq] at h
    simp at h
  · rw [heq] at h
    simp at h

theorem getRequiredModulesFromFile_ok (env : Env) (fn : String) (mr : ModRoot)
    (mods : List ModRef) (h : getRequiredModulesFromFile env fn = .ok (mr, mods)) :
    mods = loadModulesFromModFile mr := by
  unfold getRequiredModulesFromFile at h
  split at h
  · simp at h
  · split at h
    · simp at h
    · simp only [Except.ok.injEq, Prod.mk.injEq] at h
      obtain ⟨h1, h2⟩ := h
      subst h1
      exact h2.symm

theorem getRequiredModulesFromBytes_ok (env : Env) (b : String) (mr : ModRoot)
    (mods : List ModRef) (h : getRequiredModulesFromBytes env b = .ok (mr, mods)) :
    mods = loadModulesFromModFile mr := by
  unfold getRequiredModulesFromBytes at h
  split at h
  · simp at h
  · simp only [Except.ok.injEq, Prod.mk.injEq] at h
    obtain ⟨h1, h2⟩ := h
    subst h1
    exact h2.symm

theorem getRequiredModules_ok (env : Env) (nm : String) (zf : Zip) (mr : ModRoot)
    (mods : List ModRef) (h : getRequiredModules env nm zf = .ok (mr, mods)) :
    mods = loadModulesFromModFile mr := by
  unfold getRequiredModules at h
  split at h
  · exact getRequiredModulesFromBytes_ok env _ mr mods h
  · simp at h

theorem remoteRequiredModules_ok (env : Env) (mod : ModRef) (zf : Zip)
    (lic0 : String) (childRoot : ModRoot) (lic : String) (childMods : List ModRef)
    (h : remoteRequiredModules env mod zf lic0 = .ok (some childRoot, lic, childMods)) :
    childMods = loadModulesFromModFile childRoot := by
  unfold remoteRequiredModules at h
  split at h
  case h_1 cr cm heq =>
    simp only [Outcome.ok.injEq, Prod.mk.injEq] at h
    obtain ⟨h1, h2, h3⟩ := h
    rw [← h3]
    rw [Option.some.injEq] at h1
    rw [← h1]
    exact getRequiredModules_ok env _ zf _ _ heq
  case h_2 => simp at h
  case h_3 => simp at h

theorem extract_children_from_manifest (env : Env) (lenient : Bool)
    (modRoot : ModRoot) (mod : ModRef) (childRoot : ModRoot) (lic : String)
    (childMods : List ModRef)
    (h : extractLicenseAndRequiredModules env lenient modRoot mod =
      .ok (some childRoot, lic, childMods)) :
    childMods = loadModulesFromModFile childRoot := by
  unfold extractLicenseAndRequiredModules at h
  split at h
  · -- local replacement branch
    simp only at h
    split at h
    · simp at h
    · split at h
      case h_1 cr cm heq =>
        simp only [Outcome.ok.injEq, Prod.mk.injEq, Option.some.injEq] at h
        obtain ⟨h1, h2, h3⟩ := h
        rw [← h3, ← h1]
        exact getRequiredModulesFromFile_ok env _ _ _ heq
      case h_2 => simp at h
  · -- remote branch
    split at h
    · -- download failed
      split at h
      · simp at h
      · simp at h
    · -- download succeeded
      split at h
      · -- license extraction failed
        split at h
        · exact remoteRequiredModules_ok env _ _ _ _ _ _ h
        · simp at h
      · exact remoteRequiredModules_ok env _ _ _ _ _ _ h

theorem buildList_cached (env : Env) (lenient : Bool)
    (recur : ModRoot → List ModRef → Cache → Outcome (List Module × Cache))
    (modRoot : ModRoot) (mod : ModRef) (rest : List ModRef) (cache : Cache)
    (cm : Module) (hc : getModuleFromCache cache mod = some cm) :
    buildList env lenient recur modRoot (mod :: rest) cache =
      consResult (.mk mod.version mod.replacedBy cm.license cm.dependencies)
        (buildList env lenient recur modRoot rest cache) := by
  rw [buildList, hc]

theorem buildList_extract_err (env : Env) (lenient : Bool)
    (recur : ModRoot → List ModRef → Cache → Outcome (List Module × Cache))
    (modRoot : ModRoot) (mod : ModRef) (rest : List ModRef) (cache : Cache)
    (e : BuildErr) (hc : getModuleFromCache cache mod = none)
    (hex : extractLicenseAndRequiredModules env lenient modRoot mod = .err e) :
    buildList env lenient recur modRoot (mod :: rest) cache = .err e := by
  rw [buildList, hc, hex]

theorem buildList_extract_fatal (env : Env) (lenient : Bool)
    (recur : ModRoot → List ModRef → Cache → Outcome (List Module × Cache))
    (modRoot : ModRoot) (mod : ModRef) (rest : List ModRef) (cache : Cache)
    (msg : String) (hc : getModuleFromCache cache mod = none)
    (hex : extractLicenseAndRequiredModules env lenient modRoot mod = .fatal msg) :
    buildList env lenient recur modRoot (mod :: rest) cache = .fatal msg := by
  rw [buildList, hc, hex]

theorem buildList_classify_err (env : Env) (lenient : Bool)
    (recur : ModRoot → List ModRef → Cache → Outcome (List Module × Cache))
    (modRoot : ModRoot) (mod : ModRef) (rest : List ModRef) (cache : Cache)
    (cro : Option ModRoot) (lic : String) (cm : List ModRef) (e : BuildErr)
    (hc : getModuleFromCache cache mod = none)
    (hex : extractLicenseAndRequiredModules env lenient modRoot mod = .ok (cro, lic, cm))
    (hcl : classifyLicense env lenient mod.version lic = .error e) :
    buildList env lenient recur modRoot (mod :: rest) cache = .err e := by
  simp only [buildList, hc, hex, hcl]

theorem buildList_leaf (env : Env) (lenient : Bool)
    (recur : ModRoot → List ModRef → Cache → Outcome (List Module × Cache))
    (modRoot : ModRoot) (mod : ModRef) (rest : List ModRef) (cache : Cache)
    (lic : String) (cm : List ModRef) (L : License)
    (hc : getModuleFromCache cache mod = none)
    (hex : extractLicenseAndRequiredModules env lenient modRoot mod = .ok (none, lic, cm))
    (hcl : classifyLicense env lenient mod.version lic = .ok L) :
    buildList env lenient recur modRoot (mod :: rest) cache =
      consResult (.mk mod.version mod.replacedBy (some L) [])
        (buildList env lenient recur modRoot rest
          (cacheModule cache (.mk mod.version mod.replacedBy (some L) []))) := by
  simp only [buildList, hc, hex, hcl]

theorem buildList_expand (env : Env) (lenient : Bool)
    (recur : ModRoot → List ModRef → Cache → Outcome (List Module × Cache))
    (modRoot : ModRoot) (mod : ModRef) (rest : List ModRef) (cache : Cache)
    (childRoot : ModRoot) (lic : String) (cm : List ModRef) (L : License)
    (childNodes : List Module) (cache1 : Cache)
    (hc : getModuleFromCache cache mod = none)
    (hex : extractLicenseAndRequiredModules env lenient modRoot mod =
      .ok (some childRoot, lic, cm))
    (hcl : classifyLicense env lenient mod.version lic = .ok L)
    (hrec : recur childRoot cm cache = .ok (childNodes, cache1)) :
    buildList env lenient recur modRoot (mod :: rest) cache =
      consResult (.mk mod.version mod.replacedBy (some L) childNodes)
        (buildList env lenient recur modRoot rest
          (cacheModule cache1 (.mk mod.version mod.replacedBy (some L) childNodes))) := by
  simp only [buildList, hc, hex, hcl, hrec]

theorem extract_download_err (env : Env) (modRoot : ModRoot) (mod : ModRef)
    (msg : String) (hr : mod.replacedBy = none)
    (hdl : env.download mod.version = .error msg) :
    extractLicenseAndRequiredModules env false modRoot mod = .err (.downloadErr msg) ∧
    extractLicenseAndRequiredModules env true modRoot mod = .ok (none, "", []) := by
  unfold extractLicenseAndRequiredModules
  rw [hr]
  constructor <;> simp [hdl]

theorem extract_license_missing (env : Env) (modRoot : ModRoot) (mod : ModRef)
    (zf : Zip) (hr : mod.replacedBy = none)
    (hdl : env.download mod.version = .ok zf)
    (hlic : extractLicense (ModVersion.toString mod.version) zf = .error .licenseNotFound) :
    extractLicenseAndRequiredModules env false modRoot mod = .err .licenseNotFound ∧
    extractLicenseAndRequiredModules env true modRoot mod =
      remoteRequiredModules env mod zf "" := by
  unfold extractLicenseAndRequiredModules
  rw [hr]
  constructor <;> simp [hdl, hlic]

theorem extract_license_ok (env : Env) (lenient : Bool) (modRoot : ModRoot)
    (mod : ModRef) (zf : Zip) (lic : String) (hr : mod.replacedBy = none)
    (hdl : env.download mod.version = .ok zf)
    (hlic : extractLicense (ModVersion.toString mod.version) zf = .ok lic) :
    extractLicenseAndRequiredModules env lenient modRoot mod =
      remoteRequiredModules env mod zf lic := by
  unfold extractLicenseAndRequiredModules
  rw [hr]
  simp [hdl, hlic]

theorem remoteRequired_goModNotFound (env : Env) (mod : ModRef) (zf : Zip)
    (lic : String)
    (hmod : getRequiredModules env mod.version.version zf = .error .goModNotFound) :
    remoteRequiredModules env mod zf lic = .ok (none, lic, []) := by
  unfold remoteRequiredModules
  simp [hmod]

theorem remoteRequired_parseErr (env : Env) (mod : ModRef) (zf : Zip)
    (lic : String) (msg : String)
    (hmod : getRequiredModules env mod.version.version zf = .error (.parseErr msg)) :
    remoteRequiredModules env mod zf lic = .err (.parseErr msg) := by
  unfold remoteRequiredModules
  simp [hmod]

theorem extract_local_ok (env : Env) (lenient : Bool) (modRoot : ModRoot)
    (mod : ModRef) (rep : ModVersion) (files : List DirEntry)
    (hr : mod.replacedBy = some rep)
    (hdir : env.readDir (filepathJoin modRoot.rootPath rep.path) = .ok files) :
    extractLicenseAndRequiredModules env lenient modRoot mod =
      (match getRequiredModulesFromFile env
          (localScan env (filepathJoin modRoot.rootPath rep.path) files).2 with
       | .ok (cr, cm) =>
         .ok (some cr, (localScan env (filepathJoin modRoot.rootPath rep.path) files).1, cm)
       | .error _ =>
         .ok (none, (localScan env (filepathJoin modRoot.rootPath rep.path) files).1, [])) := by
  unfold extractLicenseAndRequiredModules
  rw [hr]
  simp only [hdir]

theorem extract_local_fatal (env : Env) (lenient : Bool) (modRoot : ModRoot)
    (mod : ModRef) (rep : ModVersion) (msg : String)
    (hr : mod.replacedBy = some rep)
    (hdir : env.readDir (filepathJoin modRoot.rootPath rep.path) = .error msg) :
    extractLicenseAndRequiredModules env lenient modRoot mod = .fatal msg := by
  unfold extractLicenseAndRequiredModules
  rw [hr]
  simp [hdir]

theorem classify_lenient_empty (env : Env) (v : ModVersion) :
    classifyLicense env true v "" = .ok ⟨unknownLicensePlaceholder v, "Unknown"⟩ := by
  rfl

theorem loadModules_single (mf : ModFile) (rp : String) (v : ModVersion)
    (hreq : mf.require = [v]) (hrep : mf.replace = []) :
    loadModulesFromModFile ⟨mf, rp⟩ = [⟨v, none⟩] := by
  simp [loadModulesFromModFile, hreq, hrep, replacementLookup]


/-!
Claim theorems.
-/

/-- C1: evaluation of `moduleID` at a replaced and an un-replaced module
with the same (path, version).  The claim states the key is the canonical
`path@version` form with replacement detail so the two keys differ; the
code produces the identical key `version@path` for both (the replacement
suffix is discarded), and a cache lookup for the replaced module hits the
un-replaced module's entry. -/
theorem C1_module_cache_key :
    moduleID mV (some ⟨"example.com/fork", "v2.0.0"⟩) = moduleID mV none ∧
    moduleID mV none = "v1.0.0@example.com/m" ∧
    getModuleFromCache (cacheModule [] (.mk mV none (some ⟨"MIT text", "MIT"⟩) []))
      ⟨mV, some ⟨"example.com/fork", "v2.0.0"⟩⟩ =
      some (.mk mV none (some ⟨"MIT text", "MIT"⟩) []) :=
  ⟨rfl, rfl, rfl⟩

/-- C2 counterexample: a two-level build with depth bound 1.  The module
`bV` is first discovered at depth exactly 1 = maxDepth; it is present as a
leaf but its license is `none`, not a non-empty License Record as the
claim states. -/
theorem C2_counterexample :
    buildGraph envTwoLevel false modRootA 1 = .ok treeTwoLevel ∧
    treeTwoLevel.root.dependencies.map
      (fun d => d.dependencies.map Module.license) = [[none]] :=
  ⟨rfl, rfl⟩

/-- C2 (amended): modules reaching the depth bound are still present, in
order, as leaf nodes, but wholly unprocessed: no license record at all and
no children, the cache untouched. -/
theorem C2_depth_bound_nodes_bare (env : Env) (lenient : Bool) (modRoot : ModRoot)
    (mods : List ModRef) (cache : Cache) :
    buildModulesDependencyGraph env lenient 0 modRoot mods cache =
      .ok (mods.map skippedNode, cache) ∧
    (∀ mod ∈ mods, (skippedNode mod).version = mod.version ∧
      (skippedNode mod).replacedBy = mod.replacedBy ∧
      (skippedNode mod).license = none ∧
      (skippedNode mod).dependencies = []) := by
  refine ⟨rfl, ?_⟩
  intro mod _
  exact ⟨rfl, rfl, rfl, rfl⟩

/-- Witness for C2's amended theorem at a concrete input. -/
theorem C2_depth_bound_nodes_bare_witness :
    buildModulesDependencyGraph envTwoLevel false 0 modRootA [⟨bV, none⟩] [] =
      .ok ([skippedNode ⟨bV, none⟩], []) ∧
    (skippedNode ⟨bV, none⟩).license = none ∧
    (skippedNode ⟨bV, none⟩).dependencies = [] := by
  have h := C2_depth_bound_nodes_bare envTwoLevel false modRootA [⟨bV, none⟩] []
  have h2 := h.2 ⟨bV, none⟩ (by simp)
  exact ⟨h.1, h2.2.2.1, h2.2.2.2⟩

/-- C3 counterexample: the root's only requirement carries a local
replacement whose directory holds a go.mod that fails to parse
(`parseModFile` always errors).  The claim says the build aborts in both
modes; instead the build completes in both strict and lenient mode, the
module becoming a leaf. -/
theorem C3_counterexample :
    buildGraph envLocalBadMod false modRootRepl 1 =
      .ok ⟨.mk rootV none none [.mk aV (some repA) (some ⟨"", "None"⟩) []]⟩ ∧
    buildGraph envLocalBadMod true modRootRepl 1 =
      .ok ⟨.mk rootV none none
        [.mk aV (some repA) (some ⟨unknownLicensePlaceholder aV, "Unknown"⟩) []]⟩ :=
  ⟨rfl, rfl⟩

/-- C3 (amended): a manifest parse failure aborts the build on the
remote/registry path (in both modes), but on the local replacement path
the error from `getRequiredModulesFromFile` is discarded and the module
becomes a leaf node with a nil error. -/
theorem C3_parse_failure_policy (env : Env) (lenient : Bool) (modRoot : ModRoot) :
    (∀ (mod : ModRef) (zf : Zip) (lic msg : String), mod.replacedBy = none →
      env.download mod.version = .ok zf →
      extractLicense (ModVersion.toString mod.version) zf = .ok lic →
      getRequiredModules env mod.version.version zf = .error (.parseErr msg) →
      extractLicenseAndRequiredModules env lenient modRoot mod =
        .err (.parseErr msg)) ∧
    (∀ (mod : ModRef) (rep : ModVersion) (files : List DirEntry) (msg : String),
      mod.replacedBy = some rep →
      env.readDir (filepathJoin modRoot.rootPath rep.path) = .ok files →
      getRequiredModulesFromFile env
        (localScan env (filepathJoin modRoot.rootPath rep.path) files).2 =
        .error (.parseErr msg) →
      extractLicenseAndRequiredModules env lenient modRoot mod =
        .ok (none, (localScan env (filepathJoin modRoot.rootPath rep.path) files).1, [])) := by
  constructor
  · intro mod zf lic msg hr hdl hlic hmod
    exact (extract_license_ok env lenient modRoot mod zf lic hr hdl hlic).trans
      (remoteRequired_parseErr env mod zf lic msg hmod)
  · intro mod rep files msg hr hdir hfile
    rw [extract_local_ok env lenient modRoot mod rep files hr hdir, hfile]

/-- Witness for C3's amended theorem at concrete inputs: a remote archive
whose go.mod fails to parse aborts with the parse error; a local
replacement whose go.mod fails to parse yields a leaf with no error. -/
theorem C3_parse_failure_policy_witness :
    extractLicenseAndRequiredModules envRemoteBadMod false modRootA ⟨aV, none⟩ =
      .err (.parseErr "syntax error") ∧
    extractLicenseAndRequiredModules envLocalBadMod true modRootRepl ⟨aV, some repA⟩ =
      .ok (none, (localScan envLocalBadMod (filepathJoin modRootRepl.rootPath repA.path)
        [⟨"go.mod", false⟩]).1, []) := by
  constructor
  · exact (C3_parse_failure_policy envRemoteBadMod false modRootA).1
      ⟨aV, none⟩ _ "MIT text" "syntax error" rfl rfl rfl rfl
  · exact (C3_parse_failure_policy envLocalBadMod true modRootRepl).2
      ⟨aV, some repA⟩ repA [⟨"go.mod", false⟩] "syntax error" rfl rfl rfl

/-- C4: a module whose archive holds no go.mod (`goModNotFound` from
`getRequiredModules`) yields a leaf result with nil child manifest, and
the per-module loop turns it into a node with empty dependencies while
continuing with the remaining modules — in both modes (`lenient` is
universally quantified). -/
theorem C4_manifest_missing_tolerated (env : Env) (lenient : Bool)
    (modRoot : ModRoot) (mod : ModRef) (zf : Zip) (lic : String)
    (hr : mod.replacedBy = none)
    (hdl : env.download mod.version = .ok zf)
    (hlic : extractLicense (ModVersion.toString mod.version) zf = .ok lic)
    (hmod : getRequiredModules env mod.version.version zf = .error .goModNotFound) :
    extractLicenseAndRequiredModules env lenient modRoot mod = .ok (none, lic, []) ∧
    (∀ recur rest cache L, getModuleFromCache cache mod = none →
      classifyLicense env lenient mod.version lic = .ok L →
      buildList env lenient recur modRoot (mod :: rest) cache =
        consResult (.mk mod.version mod.replacedBy (some L) [])
          (buildList env lenient recur modRoot rest
            (cacheModule cache (.mk mod.version mod.replacedBy (some L) [])))) := by
  have hex := (extract_license_ok env lenient modRoot mod zf lic hr hdl hlic).trans
    (remoteRequired_goModNotFound env mod zf lic hmod)
  refine ⟨hex, ?_⟩
  intro recur rest cache L hc hcl
  exact buildList_leaf env lenient recur modRoot mod rest cache lic [] L hc hex hcl

/-- Witness for C4 at a concrete input: an archive with a license and no
go.mod. -/
theorem C4_manifest_missing_tolerated_witness :
    extractLicenseAndRequiredModules envLeafLicense false modRootA ⟨aV, none⟩ =
      .ok (none, "MIT text", []) ∧
    buildList envLeafLicense false (buildModulesDependencyGraph envLeafLicense false 0)
        modRootA [⟨aV, none⟩] [] =
      consResult (.mk aV none (some ⟨"MIT text", "MIT"⟩) [])
        (buildList envLeafLicense false (buildModulesDependencyGraph envLeafLicense false 0)
          modRootA [] (cacheModule [] (.mk aV none (some ⟨"MIT text", "MIT"⟩) []))) := by
  have h := C4_manifest_missing_tolerated envLeafLicense false modRootA ⟨aV, none⟩
    _ "MIT text" rfl rfl rfl rfl
  exact ⟨h.1, h.2 (buildModulesDependencyGraph envLeafLicense false 0) [] []
    ⟨"MIT text", "MIT"⟩ rfl rfl⟩

/-- C5: a build whose only module has no discoverable license (the
archive search reports `licenseNotFound`): strict mode aborts the whole
build with `licenseNotFound`; lenient mode completes, the node carrying
label "Unknown" with the placeholder text. -/
theorem C5_license_missing_modes (env : Env) (v : ModVersion) (zf : Zip)
    (mf : ModFile) (rp : String) (m : Nat)
    (hreq : mf.require = [v]) (hrep : mf.replace = [])
    (hdl : env.download v = .ok zf)
    (hlic : extractLicense (ModVersion.toString v) zf = .error .licenseNotFound)
    (hmod : getRequiredModules env v.version zf = .error .goModNotFound) :
    buildGraph env false ⟨mf, rp⟩ (m + 1) = .err .licenseNotFound ∧
    buildGraph env true ⟨mf, rp⟩ (m + 1) =
      .ok ⟨.mk mf.module none none
        [.mk v none (some ⟨unknownLicensePlaceholder v, "Unknown"⟩) []]⟩ := by
  have hload := loadModules_single mf rp v hreq hrep
  have hmv : (⟨v, none⟩ : ModRef).version = v := rfl
  constructor
  · unfold buildGraph
    simp only [hload, buildModulesDependencyGraph]
    rw [buildList_extract_err env false (buildModulesDependencyGraph env false m)
      ⟨mf, rp⟩ ⟨v, none⟩ [] [] .licenseNotFound rfl
      (extract_license_missing env ⟨mf, rp⟩ ⟨v, none⟩ zf rfl (hmv ▸ hdl) (hmv ▸ hlic)).1]
  · unfold buildGraph
    simp only [hload, buildModulesDependencyGraph]
    rw [buildList_leaf env true (buildModulesDependencyGraph env true m)
      ⟨mf, rp⟩ ⟨v, none⟩ [] [] "" [] ⟨unknownLicensePlaceholder v, "Unknown"⟩ rfl
      (((extract_license_missing env ⟨mf, rp⟩ ⟨v, none⟩ zf rfl (hmv ▸ hdl) (hmv ▸ hlic)).2).trans
        (remoteRequired_goModNotFound env ⟨v, none⟩ zf "" (hmv ▸ hmod)))
      (classify_lenient_empty env v)]
    simp [buildList, consResult]

/-- Witness for C5 at a concrete input: an empty archive for the single
requirement. -/
theorem C5_license_missing_modes_witness :
    buildGraph envEmptyArchive false ⟨rootFileA, "/src"⟩ 1 = .err .licenseNotFound ∧
    buildGraph envEmptyArchive true ⟨rootFileA, "/src"⟩ 1 =
      .ok ⟨.mk rootFileA.module none none
        [.mk aV none (some ⟨unknownLicensePlaceholder aV, "Unknown"⟩) []]⟩ :=
  C5_license_missing_modes envEmptyArchive aV [] rootFileA "/src" 0 rfl rfl rfl rfl rfl

/-- C6: a required module carrying a replacement is resolved without the
archive-retrieval collaborator: the result is unchanged under an arbitrary
substitution of the download oracle, and when the directory at the
replacement path joined onto the parent manifest's root context lists
successfully, the result is exactly the local filesystem computation over
that directory. -/
theorem C6_replacement_skips_download (env : Env) (lenient : Bool)
    (modRoot : ModRoot) (mod : ModRef) (rep : ModVersion)
    (hr : mod.replacedBy = some rep) :
    (∀ d', extractLicenseAndRequiredModules
        { env with download := d' } lenient modRoot mod =
      extractLicenseAndRequiredModules env lenient modRoot mod) ∧
    (∀ files, env.readDir (filepathJoin modRoot.rootPath rep.path) = .ok files →
      extractLicenseAndRequiredModules env lenient modRoot mod =
        (match getRequiredModulesFromFile env
            (localScan env (filepathJoin modRoot.rootPath rep.path) files).2 with
         | .ok (cr, cm) =>
           .ok (some cr, (localScan env (filepathJoin modRoot.rootPath rep.path) files).1, cm)
         | .error _ =>
           .ok (none, (localScan env (filepathJoin modRoot.rootPath rep.path) files).1, []))) := by
  constructor
  · intro d'
    unfold extractLicenseAndRequiredModules
    rw [hr]
    simp only [localScan, getRequiredModulesFromFile]
  · intro files hdir
    exact extract_local_ok env lenient modRoot mod rep files hr hdir

/-- Witness for C6 at a concrete input: swapping in an always-failing
download oracle does not change the replaced module's resolution. -/
theorem C6_replacement_skips_download_witness :
    extractLicenseAndRequiredModules
        { envLocalBadMod with download := fun _ => .error "refused" } true
        modRootRepl ⟨aV, some repA⟩ =
      extractLicenseAndRequiredModules envLocalBadMod true modRootRepl ⟨aV, some repA⟩ ∧
    extractLicenseAndRequiredModules envLocalBadMod true modRootRepl ⟨aV, some repA⟩ =
      (match getRequiredModulesFromFile envLocalBadMod
          (localScan envLocalBadMod (filepathJoin modRootRepl.rootPath repA.path)
            [⟨"go.mod", false⟩]).2 with
       | .ok (cr, cm) =>
         .ok (some cr, (localScan envLocalBadMod (filepathJoin modRootRepl.rootPath repA.path)
           [⟨"go.mod", false⟩]).1, cm)
       | .error _ =>
         .ok (none, (localScan envLocalBadMod (filepathJoin modRootRepl.rootPath repA.path)
           [⟨"go.mod", false⟩]).1, [])) :=
  ⟨(C6_replacement_skips_download envLocalBadMod true modRootRepl ⟨aV, some repA⟩ repA rfl).1 _,
   (C6_replacement_skips_download envLocalBadMod true modRootRepl ⟨aV, some repA⟩ repA rfl).2
     [⟨"go.mod", false⟩] rfl⟩

/-- C7: evaluation of the archive search on a standard-layout archive for
`example.com/m@v1.0.0`.  Stripping the lower-cased full identity leaves
`/go.mod` (first conjunct, the rule the claim states), but the code
passes the bare version as the prefix, which strips nothing (second
conjunct), so the manifest is reported not found (third conjunct) even
though the license search — which does use the lower-cased full identity —
succeeds (fourth conjunct); the module therefore resolves with no
children (fifth conjunct). -/
theorem C7_archive_prefix_evaluation :
    trimLeading "example.com/m@v1.0.0/go.mod" (strToLower (ModVersion.toString mV)) =
      "/go.mod" ∧
    trimLeading "example.com/m@v1.0.0/go.mod" mV.version =
      "example.com/m@v1.0.0/go.mod" ∧
    getRequiredModules envStandardLayout mV.version zipStandardLayout =
      .error .goModNotFound ∧
    extractLicense (ModVersion.toString mV) zipStandardLayout = .ok "MIT text" ∧
    extractLicenseAndRequiredModules envStandardLayout false modRootA ⟨mV, none⟩ =
      .ok (none, "MIT text", []) :=
  ⟨rfl, rfl, rfl, rfl, rfl⟩

/-- C8: a build whose only module's archive download fails: strict mode
aborts the whole build with the download error; lenient mode skips the
module — the resolver returns empty license bytes and empty children, and
the build completes with the module as a leaf (its empty license bytes
then labelled "Unknown" by the lenient placeholder rule). -/
theorem C8_download_failure_modes (env : Env) (v : ModVersion) (mf : ModFile)
    (rp : String) (m : Nat) (msg : String)
    (hreq : mf.require = [v]) (hrep : mf.replace = [])
    (hdl : env.download v = .error msg) :
    extractLicenseAndRequiredModules env true ⟨mf, rp⟩ ⟨v, none⟩ =
      .ok (none, "", []) ∧
    buildGraph env false ⟨mf, rp⟩ (m + 1) = .err (.downloadErr msg) ∧
    buildGraph env true ⟨mf, rp⟩ (m + 1) =
      .ok ⟨.mk mf.module none none
        [.mk v none (some ⟨unknownLicensePlaceholder v, "Unknown"⟩) []]⟩ := by
  have hload := loadModules_single mf rp v hreq hrep
  have hmv : (⟨v, none⟩ : ModRef).version = v := rfl
  have hex := extract_download_err env ⟨mf, rp⟩ ⟨v, none⟩ msg rfl (hmv ▸ hdl)
  refine ⟨hex.2, ?_, ?_⟩
  · unfold buildGraph
    simp only [hload, buildModulesDependencyGraph]
    rw [buildList_extract_err env false (buildModulesDependencyGraph env false m)
      ⟨mf, rp⟩ ⟨v, none⟩ [] [] (.downloadErr msg) rfl hex.1]
  · unfold buildGraph
    simp only [hload, buildModulesDependencyGraph]
    rw [buildList_leaf env true (buildModulesDependencyGraph env true m)
      ⟨mf, rp⟩ ⟨v, none⟩ [] [] "" [] ⟨unknownLicensePlaceholder v, "Unknown"⟩ rfl
      hex.2 (classify_lenient_empty env v)]
    simp [buildList, consResult]

/-- Witness for C8 at a concrete input: an environment where every
download fails. -/
theorem C8_download_failure_modes_witness :
    extractLicenseAndRequiredModules envDownloadFail true ⟨rootFileA, "/src"⟩ ⟨aV, none⟩ =
      .ok (none, "", []) ∧
    buildGraph envDownloadFail false ⟨rootFileA, "/src"⟩ 1 =
      .err (.downloadErr "connection refused") ∧
    buildGraph envDownloadFail true ⟨rootFileA, "/src"⟩ 1 =
      .ok ⟨.mk rootFileA.module none none
        [.mk aV none (some ⟨unknownLicensePlaceholder aV, "Unknown"⟩) []]⟩ :=
  C8_download_failure_modes envDownloadFail aV rootFileA "/src" 0 "connection refused"
    rfl rfl rfl

/-- C9: order preservation and the synthetic root.  (1) the loaded
requirement list carries the manifest's `require` identities in declared
order; (2) the per-level resolution maps the module list to nodes with
the same identities in the same order, never re-sorting; (3) a successful
build's root is the synthetic node for the root module with no license and
no replacement, its children carrying the root manifest's requirements in
declared order; (4) an expanded node's children list is exactly the one
loaded from its own manifest. -/
theorem C9_order_preservation :
    (∀ mr : ModRoot, (loadModulesFromModFile mr).map ModRef.version = mr.modFile.require) ∧
    (∀ (env : Env) (lenient : Bool) (r : Nat) (modRoot : ModRoot)
        (mods : List ModRef) (cache : Cache) (ms : List Module) (c : Cache),
      buildModulesDependencyGraph env lenient r modRoot mods cache = .ok (ms, c) →
      ms.map Module.version = mods.map ModRef.version ∧
      ms.map Module.replacedBy = mods.map ModRef.replacedBy) ∧
    (∀ (env : Env) (lenient : Bool) (modRoot : ModRoot) (maxDepth : Nat) (t : Tree),
      buildGraph env lenient modRoot maxDepth = .ok t →
      t.root.version = modRoot.modFile.module ∧ t.root.license = none ∧
      t.root.replacedBy = none ∧
      t.root.dependencies.map Module.version = modRoot.modFile.require) ∧
    (∀ (env : Env) (lenient : Bool) (modRoot : ModRoot) (mod : ModRef)
        (childRoot : ModRoot) (lic : String) (childMods : List ModRef),
      extractLicenseAndRequiredModules env lenient modRoot mod =
        .ok (some childRoot, lic, childMods) →
      childMods = loadModulesFromModFile childRoot) :=
  ⟨loadModules_map_version,
   fun env lenient r modRoot mods cache ms c h =>
     bmdg_map_version env lenient r modRoot mods cache ms c h,
   fun env lenient modRoot maxDepth t h =>
     buildGraph_root env lenient modRoot maxDepth t h,
   fun env lenient modRoot mod childRoot lic childMods h =>
     extract_children_from_manifest env lenient modRoot mod childRoot lic childMods h⟩

/-- Witness for C9 at a concrete input: the two-level build's root
children match the root manifest's requirement list. -/
theorem C9_order_preservation_witness :
    treeTwoLevel.root.dependencies.map Module.version = modRootA.modFile.require ∧
    (loadModulesFromModFile modRootA).map ModRef.version = [aV] :=
  ⟨(C9_order_preservation.2.2.1 envTwoLevel false modRootA 1 treeTwoLevel rfl).2.2.2,
   (C9_order_preservation.1 modRootA).trans rfl⟩

/-- C10: when the replacement directory cannot be listed, the resolution
terminates the process (`log.Fatal`, modelled as the `fatal` outcome) in
both modes (`lenient` universally quantified); the failure is never an
ordinary returned error nor a success, and the per-module loop propagates
the termination. -/
theorem C10_replacement_listing_fatal (env : Env) (lenient : Bool)
    (modRoot : ModRoot) (mod : ModRef) (rep : ModVersion) (msg : String)
    (hr : mod.replacedBy = some rep)
    (hdir : env.readDir (filepathJoin modRoot.rootPath rep.path) = .error msg) :
    extractLicenseAndRequiredModules env lenient modRoot mod = .fatal msg ∧
    (∀ e, extractLicenseAndRequiredModules env lenient modRoot mod ≠ .err e) ∧
    (∀ x, extractLicenseAndRequiredModules env lenient modRoot mod ≠ .ok x) ∧
    (∀ recur rest cache, getModuleFromCache cache mod = none →
      buildList env lenient recur modRoot (mod :: rest) cache = .fatal msg) := by
  have hex := extract_local_fatal env lenient modRoot mod rep msg hr hdir
  refine ⟨hex, ?_, ?_, ?_⟩
  · intro e he
    rw [hex] at he
    exact Outcome.noConfusion he
  · intro x hx
    rw [hex] at hx
    exact Outcome.noConfusion hx
  · intro recur rest cache hc
    exact buildList_extract_fatal env lenient recur modRoot mod rest cache msg hc hex

/-- Witness for C10 at a concrete input: an environment where the
replacement directory listing fails, in strict and in lenient mode. -/
theorem C10_replacement_listing_fatal_witness :
    extractLicenseAndRequiredModules envDirFail false modRootRepl ⟨aV, some repA⟩ =
      .fatal "no such directory" ∧
    extractLicenseAndRequiredModules envDirFail true modRootRepl ⟨aV, some repA⟩ =
      .fatal "no such directory" ∧
    buildList envDirFail true (buildModulesDependencyGraph envDirFail true 0)
        modRootRepl [⟨aV, some repA⟩] [] = .fatal "no such directory" := by
  have hs := C10_replacement_listing_fatal envDirFail false modRootRepl
    ⟨aV, some repA⟩ repA "no such directory" rfl rfl
  have hl := C10_replacement_listing_fatal envDirFail true modRootRepl
    ⟨aV, some repA⟩ repA "no such directory" rfl rfl
  exact ⟨hs.1, hl.1, hl.2.2.2 _ [] [] rfl⟩

end GenAttrib
